import Mathlib

/-!
Verification of the OrderFlow-Trading order-book core.

This file gives a shallow embedding of the Rust sources and proves or refutes
the specification claims about them.  Machine integers (`u128`) are modelled as
`Nat` with an explicit `% 2 ^ 128` wherever the Rust arithmetic can wrap;
`f64` / `Decimal` prices and quantities are modelled as `ℚ`; fallible Rust
functions returning `Result` are modelled with `Except`.

Components embedded:
* `FinArith`   — src/backend/rust/financial-math/src/arithmetic.rs
* `FinZones`   — src/rust/financial-math/src/zones.rs
* `BigArith`   — src/rust/financial-math/src/big_arithmetic.rs
  (its operand parsing is the `FromStr` instance of the `num-bigint`
  dependency, re-modelled here)
* `BTreemapCore` — src/rust/btreemap-core/src/lib.rs
* `ObCore`     — src/rust/orderbook-core/src/orderbook.rs
* `ObDec`      — src/rust/orderbook/src/orderbook.rs and financial_math.rs
-/

/-- The u128 modulus. -/
def U128 : Nat := 2 ^ 128

/-- Error taxonomy of the financial-math crates
(src/rust/financial-math/src/lib.rs, `FinancialError`). -/
inductive FinancialError where
  | Overflow
  | DivisionByZero
  | InvalidScale
  | NegativeValue
  | InvalidValue
deriving DecidableEq, Repr

/-- Lookup in an association list with `Nat` keys; models `BTreeMap::get`. -/
def mapFind? {β : Type} (k : Nat) : List (Nat × β) → Option β
  | [] => none
  | (k2, v) :: rest => if k = k2 then some v else mapFind? k rest

/-- Key-ordered insertion in an association list with `Nat` keys; models
`BTreeMap::insert` on a map kept in ascending key order. -/
def mapInsert {β : Type} (k : Nat) (v : β) : List (Nat × β) → List (Nat × β)
  | [] => [(k, v)]
  | (k2, v2) :: rest =>
    if k < k2 then (k, v) :: (k2, v2) :: rest
    else if k = k2 then (k, v) :: rest
    else (k2, v2) :: mapInsert k v rest

/-- Removal from an association list with `Nat` keys; models `BTreeMap::remove`. -/
def mapErase {β : Type} (k : Nat) : List (Nat × β) → List (Nat × β)
  | [] => []
  | (k2, v2) :: rest => if k = k2 then rest else (k2, v2) :: mapErase k rest

/-- Distance of two naturals, `|a - b|`. -/
def natDist (a b : Nat) : Nat := (a - b) + (b - a)

namespace FinArith

/-- `calculate_mid_price(bid, ask) = bid + (ask - bid) / 2` on `u128`
(src/backend/rust/financial-math/src/arithmetic.rs).  The `ask - bid`
subtraction and the final addition wrap at `2^128` (release-mode semantics). -/
def calculate_mid_price (bid ask : Nat) : Nat :=
  (bid + ((ask + U128 - bid) % U128) / 2) % U128

/-- `calculate_spread(ask, bid) = ask.saturating_sub(bid)` on `u128`
(src/backend/rust/financial-math/src/arithmetic.rs).  Truncated `Nat`
subtraction is exactly saturating subtraction. -/
def calculate_spread (ask bid : Nat) : Nat := ask - bid

/-- `calculate_percentage_change(old, new)` on `u128`
(src/backend/rust/financial-math/src/arithmetic.rs).  The multiplication
`diff * 10_000` wraps at `2^128`; the final branch sets bit 127 of the ratio
when `new < old`. -/
def calculate_percentage_change (old_value new_value : Nat) :
    Except FinancialError Nat :=
  if old_value = 0 then .error .DivisionByZero
  else
    let diff := if new_value > old_value then new_value - old_value
                else old_value - new_value
    let ratio := diff * 10000 % U128 / old_value
    if new_value ≥ old_value then .ok ratio
    else .ok (Nat.lor ratio (2 ^ 127))

end FinArith

namespace FinZones

/-- `normalize_price_to_tick(price, tick_size)` on `u128`
(src/rust/financial-math/src/zones.rs).  Additions wrap at `2^128`. -/
def normalize_price_to_tick (price tick_size : Nat) :
    Except FinancialError Nat :=
  if tick_size = 0 then .error .DivisionByZero
  else
    let remainder := price % tick_size
    if remainder = 0 then .ok price
    else
      let half_tick := tick_size / 2
      if remainder > half_tick then
        .ok ((price + (tick_size - remainder)) % U128)
      else if remainder = half_tick then
        let base := price - remainder
        if base / tick_size % 2 = 0 then .ok base
        else .ok ((base + tick_size) % U128)
      else .ok (price - remainder)

/-- `r` is a multiple of `t` nearest to `price`, and a midpoint tie is broken
toward the even quotient.  This is the property the specification asserts of
`normalize_price_to_tick`. -/
def NearestTickSpec (price t r : Nat) : Prop :=
  r % t = 0 ∧
  2 * natDist price r ≤ t ∧
  (2 * natDist price r = t → r / t % 2 = 0) ∧
  ∀ m : Nat, m % t = 0 → natDist price r ≤ natDist price m

/-- `normalize_price_to_tick price t` succeeds and its result satisfies
`NearestTickSpec`. -/
def normalizeNearest (price t : Nat) : Prop :=
  match normalize_price_to_tick price t with
  | .ok r => NearestTickSpec price t r
  | .error _ => False

end FinZones

namespace BigArith

/-- Strip one leading `'+'`; models the sign handling of
`num_bigint::BigUint::from_str_radix` (a second `'+'` is rejected later by the
digit scan in either form of the library code). -/
def stripPlus : List Char → List Char
  | '+' :: tail => tail
  | s => s

/-- Decimal digits accumulated over a character list, skipping `'_'`. -/
def digitsVal (cs : List Char) : Nat :=
  cs.foldl (fun acc c => if c = '_' then acc else acc * 10 + (c.toNat - '0'.toNat)) 0

/-- `str::parse::<num_bigint::BigUint>()`: after stripping one leading `'+'`
the string must be non-empty, must not start with `'_'`, and every character
must be a decimal digit or an `'_'` separator (which is skipped). -/
def parseBigUint (s : String) : Option Nat :=
  let t := stripPlus s.data
  if t.isEmpty then none
  else if t.head? = some '_' then none
  else if t.all (fun c => c.isDigit || c = '_') then some (digitsVal t)
  else none

/-- `big_safe_add` (src/rust/financial-math/src/big_arithmetic.rs). -/
def big_safe_add (a b : String) : Except FinancialError String :=
  match parseBigUint a with
  | none => .error .InvalidValue
  | some x =>
    match parseBigUint b with
    | none => .error .InvalidValue
    | some y => .ok (Nat.repr (x + y))

/-- `big_safe_subtract` (src/rust/financial-math/src/big_arithmetic.rs). -/
def big_safe_subtract (a b : String) : Except FinancialError String :=
  match parseBigUint a with
  | none => .error .InvalidValue
  | some x =>
    match parseBigUint b with
    | none => .error .InvalidValue
    | some y => if x < y then .error .NegativeValue else .ok (Nat.repr (x - y))

/-- `big_safe_multiply` (src/rust/financial-math/src/big_arithmetic.rs). -/
def big_safe_multiply (a b : String) : Except FinancialError String :=
  match parseBigUint a with
  | none => .error .InvalidValue
  | some x =>
    match parseBigUint b with
    | none => .error .InvalidValue
    | some y => .ok (Nat.repr (x * y))

/-- `big_safe_divide` (src/rust/financial-math/src/big_arithmetic.rs). -/
def big_safe_divide (a b : String) : Except FinancialError String :=
  match parseBigUint a with
  | none => .error .InvalidValue
  | some x =>
    match parseBigUint b with
    | none => .error .InvalidValue
    | some y => if y = 0 then .error .DivisionByZero else .ok (Nat.repr (x / y))

/-- `big_absolute_difference` (src/rust/financial-math/src/big_arithmetic.rs). -/
def big_absolute_difference (a b : String) : Except FinancialError String :=
  match parseBigUint a with
  | none => .error .InvalidValue
  | some x =>
    match parseBigUint b with
    | none => .error .InvalidValue
    | some y => .ok (Nat.repr (if x > y then x - y else y - x))

/-- `big_compare` (src/rust/financial-math/src/big_arithmetic.rs). -/
def big_compare (a b : String) : Except FinancialError Int :=
  match parseBigUint a with
  | none => .error .InvalidValue
  | some x =>
    match parseBigUint b with
    | none => .error .InvalidValue
    | some y => if x < y then .ok (-1) else if x = y then .ok 0 else .ok 1

/-- A numeral the `num-bigint` parser rejects: after stripping one leading
`'+'` it is empty, starts with `'_'`, or contains a character that is neither
a decimal digit nor `'_'`. -/
def badBigStr (s : String) : Prop :=
  stripPlus s.data = [] ∨
  (stripPlus s.data).head? = some '_' ∨
  ∃ c ∈ stripPlus s.data, ¬(c.isDigit = true ∨ c = '_')

instance (s : String) : Decidable (badBigStr s) := by
  unfold badBigStr; infer_instance

end BigArith

namespace BTreemapCore

/-- `PassiveLevel` (src/rust/btreemap-core/src/lib.rs); `f64` fields are
modelled as `ℚ`. -/
structure PassiveLevel where
  price : ℚ
  bid : ℚ
  ask : ℚ
  timestamp : ℚ
  consumed_ask : Option ℚ
  consumed_bid : Option ℚ
  added_ask : Option ℚ
  added_bid : Option ℚ
deriving DecidableEq, Repr

/-- The `BTreeMap<u128, PassiveLevel>` inside `OrderBookBTreeMap`, as an
association list kept in ascending key order. -/
abbrev Levels := List (Nat × PassiveLevel)

/-- `price_to_u128`: `(price * 100_000_000.0) as u128`.  The `f64 → u128` cast
truncates toward zero, maps negatives to `0` and saturates at `u128::MAX`. -/
def price_to_u128 (price : ℚ) : Nat :=
  min ⌊price * 100000000⌋.toNat (U128 - 1)

/-- `u128_to_price`: `value as f64 / 100_000_000.0`. -/
def u128_to_price (value : Nat) : ℚ := (value : ℚ) / 100000000

/-- `enforce_bid_ask_separation(existing, incoming)`
(src/rust/btreemap-core/src/lib.rs). -/
def enforce_bid_ask_separation (existing incoming : PassiveLevel) : PassiveLevel :=
  let r1 :=
    if incoming.bid > 0 then
      { existing with bid := incoming.bid, added_bid := incoming.added_bid,
                      ask := 0, added_ask := some 0 }
    else existing
  let r2 :=
    if incoming.ask > 0 then
      { r1 with ask := incoming.ask, added_ask := incoming.added_ask,
                bid := 0, added_bid := some 0 }
    else r1
  { r2 with timestamp := incoming.timestamp,
            consumed_bid := incoming.consumed_bid,
            consumed_ask := incoming.consumed_ask }

/-- `OrderBookBTreeMap::insert` (src/rust/btreemap-core/src/lib.rs). -/
def insert (tree : Levels) (price : ℚ) (level : PassiveLevel) : Levels :=
  let price_key := price_to_u128 price
  match mapFind? price_key tree with
  | some existing =>
    mapInsert price_key (enforce_bid_ask_separation existing level) tree
  | none => mapInsert price_key level tree

/-- `OrderBookBTreeMap::set` (src/rust/btreemap-core/src/lib.rs).  The wall
clock read by `current_timestamp()` is passed in as `now`. -/
def set (tree : Levels) (price : ℚ) (side : String) (quantity : ℚ) (now : ℚ) :
    Levels :=
  let price_key := price_to_u128 price
  match mapFind? price_key tree with
  | some existing =>
    let e1 :=
      if side = "bid" then
        let e0 := { existing with bid := quantity, added_bid := some quantity }
        if quantity > 0 then { e0 with ask := 0, added_ask := some 0 } else e0
      else
        let e0 := { existing with ask := quantity, added_ask := some quantity }
        if quantity > 0 then { e0 with bid := 0, added_bid := some 0 } else e0
    mapInsert price_key { e1 with timestamp := now } tree
  | none =>
    let level : PassiveLevel :=
      { price := price
        bid := if side = "bid" then quantity else 0
        ask := if side = "ask" then quantity else 0
        timestamp := now
        consumed_ask := some 0
        consumed_bid := some 0
        added_ask := if side = "ask" then some quantity else some 0
        added_bid := if side = "bid" then some quantity else some 0 }
    mapInsert price_key level tree

/-- `OrderBookBTreeMap::delete` (src/rust/btreemap-core/src/lib.rs). -/
def delete (tree : Levels) (price : ℚ) : Levels :=
  mapErase (price_to_u128 price) tree

/-- `OrderBookBTreeMap::get_best_bid`: descending scan for the first
`bid > 0.0`, `0.0` when none exists. -/
def get_best_bid (tree : Levels) : ℚ :=
  match tree.reverse.find? (fun kv => decide (kv.2.bid > 0)) with
  | some kv => u128_to_price kv.1
  | none => 0

/-- `OrderBookBTreeMap::get_best_ask`: ascending scan for the first
`ask > 0.0`; `none` models the `f64::INFINITY` sentinel. -/
def get_best_ask (tree : Levels) : Option ℚ :=
  (tree.find? (fun kv => decide (kv.2.ask > 0))).map (fun kv => u128_to_price kv.1)

/-- The loop body of `OrderBookBTreeMap::get_best_bid_ask`: one descending
pass, latching each side once, with the early `break`.  `none` in the ask
component models the `f64::INFINITY` sentinel. -/
def bboLoop : Levels → ℚ → Option ℚ → ℚ × Option ℚ
  | [], best_bid, best_ask => (best_bid, best_ask)
  | kv :: rest, best_bid, best_ask =>
    let bb := if kv.2.bid > 0 ∧ best_bid = 0 then u128_to_price kv.1 else best_bid
    let ba := if kv.2.ask > 0 ∧ best_ask = none then some (u128_to_price kv.1)
              else best_ask
    if bb > 0 ∧ ¬(ba = none) then (bb, ba) else bboLoop rest bb ba

/-- `OrderBookBTreeMap::get_best_bid_ask` (src/rust/btreemap-core/src/lib.rs). -/
def get_best_bid_ask (tree : Levels) : ℚ × Option ℚ :=
  bboLoop tree.reverse 0 none

/-- One write operation on an `OrderBookBTreeMap`. -/
inductive BWrite where
  | set (price : ℚ) (side : String) (quantity : ℚ) (now : ℚ)
  | insert (price : ℚ) (level : PassiveLevel)
  | delete (price : ℚ)

/-- Apply one write operation. -/
def applyWrite (tree : Levels) : BWrite → Levels
  | .set price side quantity now => set tree price side quantity now
  | .insert price level => insert tree price level
  | .delete price => delete tree price

/-- Apply a sequence of write operations in order. -/
def applyWrites (ws : List BWrite) (tree : Levels) : Levels :=
  ws.foldl applyWrite tree

/-- Per-level bid/ask exclusivity: at most one of `bid`, `ask` is strictly
positive, and at least one is. -/
def levelOK (l : PassiveLevel) : Prop :=
  ¬(l.bid > 0 ∧ l.ask > 0) ∧ (l.bid > 0 ∨ l.ask > 0)

instance (l : PassiveLevel) : Decidable (levelOK l) := by
  unfold levelOK; infer_instance

/-- Every stored level satisfies `levelOK`. -/
def exclusivityOK (tree : Levels) : Prop :=
  ∀ kv ∈ tree, levelOK kv.2

/-- Writes under which the exclusivity invariant is preserved: `set` with a
strictly positive quantity and a well-formed side string, `insert` of a level
that itself satisfies `levelOK`, and any `delete`. -/
def writeOK : BWrite → Prop
  | .set _ side quantity _ => 0 < quantity ∧ (side = "bid" ∨ side = "ask")
  | .insert _ level => levelOK level
  | .delete _ => True

instance (w : BWrite) : Decidable (writeOK w) := by
  cases w <;> (unfold writeOK; infer_instance)

end BTreemapCore

namespace ObCore

/-- `PassiveLevel` as built by `OrderBook::update_level`
(src/rust/orderbook-core/src/orderbook.rs); `f64` fields are `ℚ`, the
`DateTime<Utc>` timestamp is milliseconds since epoch as `Nat`. -/
structure PassiveLevel where
  price : ℚ
  bid : ℚ
  ask : ℚ
  timestamp : Nat
  consumed_ask : Option ℚ
  consumed_bid : Option ℚ
  added_ask : Option ℚ
  added_bid : Option ℚ
deriving DecidableEq, Repr

/-- The `BTreeMap<u128, PassiveLevel>` of levels, in ascending key order. -/
abbrev Levels := List (Nat × PassiveLevel)

/-- `DepthUpdate` (src/rust/orderbook-core/src/types.rs as used by
`update_depth`): bids and asks are lists of (price string, quantity string). -/
structure DepthUpdate where
  symbol : String
  first_update_id : Nat
  final_update_id : Nat
  bids : List (String × String)
  asks : List (String × String)

/-- `OrderBook` (src/rust/orderbook-core/src/orderbook.rs).  The `config`
field is not represented: the only piece `update_depth` reads from it is the
tick size consumed by `normalize_price`, which is abstracted as the `norm`
parameter of the operations below. -/
structure OrderBook where
  levels : Levels
  last_update : Nat
  error_count : Nat
  circuit_open : Bool
  circuit_open_until : Option Nat
deriving DecidableEq

/-- `OrderBook::new`: empty level map, `last_update = now`, counters zero,
circuit closed. -/
def emptyBook (now : Nat) : OrderBook :=
  { levels := [], last_update := now, error_count := 0,
    circuit_open := false, circuit_open_until := none }

/-- `price_to_u128` (src/rust/orderbook-core/src/orderbook.rs), identical to
the btreemap-core conversion. -/
def price_to_u128 (price : ℚ) : Nat :=
  min ⌊price * 100000000⌋.toNat (U128 - 1)

/-- `OrderBook::update_level` (src/rust/orderbook-core/src/orderbook.rs).
`norm` abstracts `normalize_price` (tick normalization via the book's
configured tick size). -/
def update_level (norm : ℚ → ℚ) (levels : Levels) (price bid_qty ask_qty : ℚ)
    (timestamp : Nat) : Levels :=
  let normalized_price := norm price
  let price_key := price_to_u128 normalized_price
  if bid_qty = 0 ∧ ask_qty = 0 then mapErase price_key levels
  else
    let base :=
      match mapFind? price_key levels with
      | some l => l
      | none =>
        { price := normalized_price, bid := 0, ask := 0,
          timestamp := timestamp, consumed_ask := none, consumed_bid := none,
          added_ask := none, added_bid := none }
    let l1 := { base with bid := bid_qty, ask := ask_qty, timestamp := timestamp }
    let l2 := if bid_qty ≠ 0 then { l1 with added_bid := some bid_qty } else l1
    let l3 := if ask_qty ≠ 0 then { l2 with added_ask := some ask_qty } else l2
    mapInsert price_key l3 levels

/-- Parsing of one `(price_str, qty_str)` token inside `update_depth`: price
first, then quantity, each failure producing the `format!` message of the
source.  `pp`/`pq` abstract `str::parse::<f64>()`. -/
def parseTok (pp pq : String → Option ℚ) (t : String × String) :
    Except String (ℚ × ℚ) :=
  match pp t.1 with
  | none => .error ("Invalid price: " ++ t.1)
  | some price =>
    match pq t.2 with
    | none => .error ("Invalid quantity: " ++ t.2)
    | some qty => .ok (price, qty)

/-- Application of one successfully parsed token (`update_level` with the
quantity on the bid or ask side); a failed token leaves the levels unchanged. -/
def applyTok (pp pq : String → Option ℚ) (norm : ℚ → ℚ) (now : Nat)
    (isBid : Bool) (levels : Levels) (t : String × String) : Levels :=
  match parseTok pp pq t with
  | .error _ => levels
  | .ok (price, qty) =>
    update_level norm levels price (if isBid then qty else 0)
      (if isBid then 0 else qty) now

/-- Fold of `applyTok` over a token list. -/
def applyToks (pp pq : String → Option ℚ) (norm : ℚ → ℚ) (now : Nat)
    (isBid : Bool) (ts : List (String × String)) (levels : Levels) : Levels :=
  ts.foldl (applyTok pp pq norm now isBid) levels

/-- One `for` loop of `update_depth` over one side's token list: parse each
token, abort with the error message at the first failure, otherwise apply
`update_level`. -/
def processSide (pp pq : String → Option ℚ) (norm : ℚ → ℚ) (now : Nat)
    (isBid : Bool) : List (String × String) → Levels → Levels × Option String
  | [], levels => (levels, none)
  | t :: rest, levels =>
    match parseTok pp pq t with
    | .error e => (levels, some e)
    | .ok (price, qty) =>
      processSide pp pq norm now isBid rest
        (update_level norm levels price (if isBid then qty else 0)
          (if isBid then 0 else qty) now)

/-- The body of `update_depth` after the circuit-breaker check: bids loop,
asks loop, then `last_update = now` on success. -/
def processUpdate (pp pq : String → Option ℚ) (norm : ℚ → ℚ) (now : Nat)
    (b : OrderBook) (u : DepthUpdate) : OrderBook × Except String Unit :=
  match processSide pp pq norm now true u.bids b.levels with
  | (lv, some e) => ({ b with levels := lv }, .error e)
  | (lv, none) =>
    match processSide pp pq norm now false u.asks lv with
    | (lv2, some e) => ({ b with levels := lv2 }, .error e)
    | (lv2, none) => ({ b with levels := lv2, last_update := now }, .ok ())

/-- `OrderBook::update_depth` (src/rust/orderbook-core/src/orderbook.rs).
The wall clock `Utc::now()` is passed in as `now`. -/
def update_depth (pp pq : String → Option ℚ) (norm : ℚ → ℚ) (now : Nat)
    (b : OrderBook) (u : DepthUpdate) : OrderBook × Except String Unit :=
  if b.circuit_open then
    match b.circuit_open_until with
    | some d =>
      if now < d then (b, .ok ())
      else
        processUpdate pp pq norm now
          { b with circuit_open := false, circuit_open_until := none } u
    | none => processUpdate pp pq norm now b u
  else processUpdate pp pq norm now b u

/-- The circuit breaker silently drops the update: the flag is set and the
deadline is strictly in the future. -/
def suppressed (b : OrderBook) (now : Nat) : Prop :=
  b.circuit_open = true ∧ ∃ d, b.circuit_open_until = some d ∧ now < d

/-- Per-level bid/ask exclusivity for the orderbook-core levels. -/
def levelOK (l : PassiveLevel) : Prop :=
  ¬(l.bid > 0 ∧ l.ask > 0) ∧ (l.bid > 0 ∨ l.ask > 0)

instance (l : PassiveLevel) : Decidable (levelOK l) := by
  unfold levelOK; infer_instance

/-- Every stored level satisfies `levelOK`. -/
def exclusivityOK (levels : Levels) : Prop :=
  ∀ kv ∈ levels, levelOK kv.2

/-- A sequence of `update_depth` calls, each with its own wall-clock instant. -/
def runUpdates (pp pq : String → Option ℚ) (norm : ℚ → ℚ)
    (steps : List (Nat × DepthUpdate)) (b : OrderBook) : OrderBook :=
  steps.foldl (fun b s => (update_depth pp pq norm s.1 b s.2).1) b

end ObCore

namespace ObDec

/-- `PassiveLevel` of the rust_decimal-based crate
(src/rust/orderbook/src/types.rs as used by orderbook.rs); `Decimal` fields
are `ℚ`. -/
structure PassiveLevel where
  price : ℚ
  bid : ℚ
  ask : ℚ
  timestamp : Nat
  consumed_ask : Option ℚ
  consumed_bid : Option ℚ
  added_ask : Option ℚ
  added_bid : Option ℚ
deriving DecidableEq, Repr

/-- The `BTreeMap<Decimal, PassiveLevel>` of levels, in ascending key order. -/
abbrev Levels := List (ℚ × PassiveLevel)

/-- `calculate_spread(ask, bid, precision)`
(src/rust/orderbook/src/financial_math.rs): `0` for a zero bid, otherwise the
plain (possibly negative) difference `ask - bid`. -/
def calculate_spread (ask bid : ℚ) (precision : Nat) : ℚ :=
  if bid = 0 then 0 else ask - bid

/-- `OrderBook::get_best_bid` (src/rust/orderbook/src/orderbook.rs):
descending scan for the first level with `bid ≠ 0`, `0.0` when none. -/
def get_best_bid (levels : Levels) : ℚ :=
  match levels.reverse.find? (fun kv => decide (kv.2.bid ≠ 0)) with
  | some kv => kv.1
  | none => 0

/-- `OrderBook::get_best_ask` (src/rust/orderbook/src/orderbook.rs):
ascending scan for the first level with `ask ≠ 0`; `none` models the
`f64::INFINITY` sentinel. -/
def get_best_ask (levels : Levels) : Option ℚ :=
  (levels.find? (fun kv => decide (kv.2.ask ≠ 0))).map (fun kv => kv.1)

/-- `OrderBook::get_spread` (src/rust/orderbook/src/orderbook.rs).
`Decimal::from_f64_retain(f64::INFINITY)` is `None`, so an absent ask becomes
`Decimal::ZERO` before the zero test. -/
def get_spread (precision : Nat) (levels : Levels) : ℚ :=
  let best_bid := get_best_bid levels
  let best_ask := (get_best_ask levels).getD 0
  if best_bid = 0 ∨ best_ask = 0 then 0
  else calculate_spread best_ask best_bid precision

end ObDec

/-- A tiny concrete stand-in for `str::parse::<f64>()` used to instantiate the
parse-abstracted theorems on concrete inputs: accepts `"1"` and `"2"` only. -/
def testParse (s : String) : Option ℚ :=
  if s = "1" then some 1 else if s = "2" then some 2 else none

theorem mapInsert_values {β : Type} (P : β → Prop) (k : Nat) (v : β) :
    ∀ L : List (Nat × β), (∀ kv ∈ L, P kv.2) → P v →
      ∀ kv ∈ mapInsert k v L, P kv.2 := by
  intro L
  induction L with
  | nil =>
    intro _ hv kv hkv
    simp only [mapInsert, List.mem_singleton] at hkv
    subst hkv; exact hv
  | cons hd tl ih =>
    intro hL hv kv hkv
    simp only [mapInsert] at hkv
    split at hkv
    · rcases List.mem_cons.1 hkv with h | h
      · subst h; exact hv
      · exact hL kv h
    · split at hkv
      · rcases List.mem_cons.1 hkv with h | h
        · subst h; exact hv
        · exact hL kv (List.mem_cons_of_mem hd h)
      · rcases List.mem_cons.1 hkv with h | h
        · subst h; exact hL hd (List.mem_cons_self hd tl)
        · exact ih (fun kv h2 => hL kv (List.mem_cons_of_mem hd h2)) hv kv h

theorem mapErase_values {β : Type} (P : β → Prop) (k : Nat) :
    ∀ L : List (Nat × β), (∀ kv ∈ L, P kv.2) →
      ∀ kv ∈ mapErase k L, P kv.2 := by
  intro L
  induction L with
  | nil => intro _ kv hkv; simp [mapErase] at hkv
  | cons hd tl ih =>
    intro hL kv hkv
    simp only [mapErase] at hkv
    split at hkv
    · exact hL kv (List.mem_cons_of_mem hd hkv)
    · rcases List.mem_cons.1 hkv with h | h
      · subst h; exact hL hd (List.mem_cons_self hd tl)
      · exact ih (fun kv h2 => hL kv (List.mem_cons_of_mem hd h2)) kv h

/-- C7 counterexample: for the crossed pair `bid = 2`, `ask = 0` the wrapping
`ask - bid` makes `calculate_mid_price` return `2^127 + 1`, not the floor of
the average `(2 + 0) / 2 = 1`. -/
theorem c7_mid_price_counterexample :
    FinArith.calculate_mid_price 2 0 = 2 ^ 127 + 1 ∧
    (2 + 0) / 2 = (1 : Nat) ∧ (2 ^ 127 + 1 : Nat) ≠ 1 := by
  refine ⟨?_, by norm_num, by norm_num⟩
  decide

/-- C7 (amended): for every pair with `bid ≤ ask` (both `u128` values),
`calculate_mid_price(bid, ask)` is the floor of the average `(bid + ask) / 2`
— in particular it tiebreaks downward for an odd spread — and the
intermediate sum `bid + (ask - bid) / 2` stays below `2^128`, so the formula
avoids the additive overflow that `bid + ask` can incur. -/
theorem c7_mid_price_amended (bid ask : Nat) (hask : ask < U128)
    (hle : bid ≤ ask) :
    FinArith.calculate_mid_price bid ask = (bid + ask) / 2 ∧
    bid + (ask - bid) / 2 < U128 := by
  unfold FinArith.calculate_mid_price U128 at *
  have h1 : ask + 2 ^ 128 - bid = (ask - bid) + 2 ^ 128 := by omega
  rw [h1, Nat.add_mod_right]
  have h2 : (ask - bid) % 2 ^ 128 = ask - bid := Nat.mod_eq_of_lt (by omega)
  rw [h2]
  have h3 : bid + (ask - bid) / 2 < 2 ^ 128 := by omega
  rw [Nat.mod_eq_of_lt h3]
  exact ⟨by omega, h3⟩

/-- C7 witness: at `bid = 2^127`, `ask = 2^127 + 2` (whose direct sum
`bid + ask` exceeds the u128 capacity) the mid price is the floor average. -/
theorem c7_mid_price_witness :
    FinArith.calculate_mid_price (2 ^ 127) (2 ^ 127 + 2) =
      (2 ^ 127 + (2 ^ 127 + 2)) / 2 ∧
    2 ^ 127 + (2 ^ 127 + 2 - 2 ^ 127) / 2 < U128 :=
  c7_mid_price_amended (2 ^ 127) (2 ^ 127 + 2)
    (by norm_num [U128]) (by norm_num)

/-- C8: at `old = 110_000_000`, `new = 100_000_000` the code returns the
ratio with bit 127 set (`2^127 + 909`), not the plain magnitude
`|new - old| * 10000 / old = 909` that the claim (and the code's own comment)
calls for. -/
theorem c8_percentage_change_code_bug :
    FinArith.calculate_percentage_change 110000000 100000000 =
      .ok (2 ^ 127 + 909) ∧
    (110000000 - 100000000) * 10000 / 110000000 = (909 : Nat) ∧
    (2 ^ 127 + 909 : Nat) ≠ 909 ∧
    FinArith.calculate_percentage_change 100000000 110000000 = .ok 1000 := by
  refine ⟨?_, by norm_num, by norm_num, ?_⟩
  · unfold FinArith.calculate_percentage_change U128
    norm_num
    decide
  · unfold FinArith.calculate_percentage_change U128
    norm_num

theorem normalize_price_to_tick_eq (price t : Nat) (ht : ¬t = 0) :
    FinZones.normalize_price_to_tick price t =
      if price % t = 0 then .ok price
      else if price % t > t / 2 then .ok ((price + (t - price % t)) % U128)
      else if price % t = t / 2 then
        (if (price - price % t) / t % 2 = 0 then .ok (price - price % t)
         else .ok ((price - price % t + t) % U128))
      else .ok (price - price % t) := by
  unfold FinZones.normalize_price_to_tick
  rw [if_neg ht]

theorem tickNearest_min (price t r m : Nat) (ht : 0 < t) (hr : r % t = 0)
    (hm : m % t = 0) (hd : 2 * natDist price r ≤ t) :
    natDist price r ≤ natDist price m := by
  rcases eq_or_ne m r with rfl | hne
  · exact Nat.le_refl _
  · obtain ⟨a, ha⟩ := Nat.dvd_of_mod_eq_zero hr
    obtain ⟨b, hb⟩ := Nat.dvd_of_mod_eq_zero hm
    have hab : a ≠ b := by
      rintro rfl; exact hne (hb.trans ha.symm)
    have hsep : t ≤ natDist r m := by
      rcases Nat.lt_or_ge a b with h | h
      · have h2 : t * a + t ≤ t * b := by
          calc t * a + t = t * (a + 1) := by ring
          _ ≤ t * b := Nat.mul_le_mul_left t h
        unfold natDist; omega
      · have h3 : b < a := by omega
        have h2 : t * b + t ≤ t * a := by
          calc t * b + t = t * (b + 1) := by ring
          _ ≤ t * a := Nat.mul_le_mul_left t h3
        unfold natDist; omega
    unfold natDist at *
    omega

/-- C6 (amended): for an even tick `t > 0` (with `price + t` within the u128
range) `normalize_price_to_tick` returns the multiple of `t` nearest to
`price`, rounding a midpoint toward the even multiple; a zero tick fails with
`DivisionByZero`.  (For an odd tick the code compares the remainder against
the truncated `t / 2` and can round away from the nearest multiple, see the
counterexample.) -/
theorem c6_normalize_amended (price t : Nat) :
    (0 < t → 2 ∣ t → price + t ≤ U128 → FinZones.normalizeNearest price t) ∧
    FinZones.normalize_price_to_tick price 0 =
      .error FinancialError.DivisionByZero := by
  constructor
  · intro ht hdvd hbound
    obtain ⟨h, rfl⟩ := hdvd
    have hh : 0 < h := by omega
    have ht0 : ¬(2 * h = 0) := by omega
    unfold FinZones.normalizeNearest
    rw [normalize_price_to_tick_eq price (2 * h) ht0]
    unfold U128 at hbound ⊢
    have hhalf : 2 * h / 2 = h := by omega
    have hmod := Nat.div_add_mod price (2 * h)
    have hr0lt : price % (2 * h) < 2 * h := Nat.mod_lt _ (by omega)
    set q := price / (2 * h) with hq
    set r0 := price % (2 * h) with hr0
    by_cases hz : r0 = 0
    · rw [if_pos hz]
      refine ⟨hz, by unfold natDist; omega, by unfold natDist; omega, ?_⟩
      intro m _
      unfold natDist; omega
    · rw [if_neg hz, hhalf]
      by_cases hgt : r0 > h
      · rw [if_pos hgt]
        have hlt : price + (2 * h - r0) < 2 ^ 128 := by omega
        rw [Nat.mod_eq_of_lt hlt]
        have hval : price + (2 * h - r0) = 2 * h * (q + 1) := by
          have : 2 * h * q + r0 = price := hmod
          calc price + (2 * h - r0) = 2 * h * q + 2 * h := by omega
          _ = 2 * h * (q + 1) := by ring
        have hmul : (price + (2 * h - r0)) % (2 * h) = 0 := by
          rw [hval]; exact Nat.mul_mod_right _ _
        have hdist : natDist price (price + (2 * h - r0)) = 2 * h - r0 := by
          unfold natDist; omega
        refine ⟨hmul, by rw [hdist]; omega, by rw [hdist]; omega, ?_⟩
        intro m hm
        exact tickNearest_min price (2 * h) _ m (by omega) hmul hm
          (by rw [hdist]; omega)
      · by_cases heq : r0 = h
        · rw [if_neg hgt, if_pos heq]
          have hbase : price - r0 = 2 * h * q := by omega
          have hbq : (price - r0) / (2 * h) = q := by
            rw [hbase]; exact Nat.mul_div_cancel_left q (by omega)
          have hbmod : (price - r0) % (2 * h) = 0 := by
            rw [hbase]; exact Nat.mul_mod_right _ _
          have hdist : natDist price (price - r0) = r0 := by
            unfold natDist; omega
          by_cases hpar : (price - r0) / (2 * h) % 2 = 0
          · rw [if_pos hpar]
            refine ⟨hbmod, by rw [hdist]; omega, fun _ => hpar, ?_⟩
            intro m hm
            exact tickNearest_min price (2 * h) _ m (by omega) hbmod hm
              (by rw [hdist]; omega)
          · rw [if_neg hpar]
            have hlt : price - r0 + 2 * h < 2 ^ 128 := by omega
            rw [Nat.mod_eq_of_lt hlt]
            have hval : price - r0 + 2 * h = 2 * h * (q + 1) := by
              calc price - r0 + 2 * h = 2 * h * q + 2 * h := by omega
              _ = 2 * h * (q + 1) := by ring
            have hmul : (price - r0 + 2 * h) % (2 * h) = 0 := by
              rw [hval]; exact Nat.mul_mod_right _ _
            have hquot : (price - r0 + 2 * h) / (2 * h) = q + 1 := by
              rw [hval]; exact Nat.mul_div_cancel_left _ (by omega)
            have hdist : natDist price (price - r0 + 2 * h) = 2 * h - r0 := by
              unfold natDist; omega
            have hparq : q % 2 ≠ 0 := by rw [hbq] at hpar; exact hpar
            refine ⟨hmul, by rw [hdist]; omega, ?_, ?_⟩
            · intro _; rw [hquot]; omega
            · intro m hm
              exact tickNearest_min price (2 * h) _ m (by omega) hmul hm
                (by rw [hdist]; omega)
        · rw [if_neg hgt, if_neg heq]
          have hbase : price - r0 = 2 * h * q := by omega
          have hbmod : (price - r0) % (2 * h) = 0 := by
            rw [hbase]; exact Nat.mul_mod_right _ _
          have hdist : natDist price (price - r0) = r0 := by
            unfold natDist; omega
          refine ⟨hbmod, by rw [hdist]; omega, by rw [hdist]; omega, ?_⟩
          intro m hm
          exact tickNearest_min price (2 * h) _ m (by omega) hbmod hm
            (by rw [hdist]; omega)
  · unfold FinZones.normalize_price_to_tick
    rfl

/-- C6 counterexample: with the odd tick `3`, `normalize_price_to_tick 4 3`
returns `6`, although `3` is a multiple of `3` strictly nearer to `4` — the
integer `tick / 2 = 1` triggers the round-to-even branch below the true
midpoint. -/
theorem c6_normalize_counterexample :
    FinZones.normalize_price_to_tick 4 3 = .ok 6 ∧
    (3 : Nat) % 3 = 0 ∧ natDist 4 3 < natDist 4 6 := by
  refine ⟨?_, by norm_num, by decide⟩
  rw [normalize_price_to_tick_eq 4 3 (by norm_num)]
  norm_num [U128]

/-- C6 witness: the amended theorem applied at `price = 100005`, `tick = 10`:
the midpoint rounds to the even multiple `100000`, and tick `0` fails with
`DivisionByZero`. -/
theorem c6_normalize_witness :
    FinZones.normalizeNearest 100005 10 ∧
    FinZones.normalize_price_to_tick 100005 0 =
      .error FinancialError.DivisionByZero :=
  ⟨(c6_normalize_amended 100005 10).1 (by norm_num) (by norm_num)
      (by norm_num [U128]),
    (c6_normalize_amended 100005 0).2⟩

/-- C4 counterexample: in the crossed book with a lone bid at 101 and a lone
ask at 100, `get_best_bid = 101 > 0` and `get_best_ask = 100 < +∞`, yet
`get_spread` is `-1 < 0`; and the kernel `calculate_spread` of the orderbook
crate returns the plain difference `-1`, not the saturating difference `0`. -/
theorem c4_spread_counterexample :
    ObDec.get_best_bid
        [(100, ⟨100, 0, 1, 0, none, none, none, none⟩),
         (101, ⟨101, 1, 0, 0, none, none, none, none⟩)] = 101 ∧
    ObDec.get_best_ask
        [(100, ⟨100, 0, 1, 0, none, none, none, none⟩),
         (101, ⟨101, 1, 0, 0, none, none, none, none⟩)] = some 100 ∧
    ObDec.get_spread 8
        [(100, ⟨100, 0, 1, 0, none, none, none, none⟩),
         (101, ⟨101, 1, 0, 0, none, none, none, none⟩)] = -1 ∧
    ¬(0 : ℚ) ≤ -1 ∧
    ObDec.calculate_spread 100 101 8 = -1 ∧
    max ((100 : ℚ) - 101) 0 = 0 := by
  refine ⟨?_, ?_, ?_, by norm_num, ?_, by norm_num⟩
  · norm_num [ObDec.get_best_bid, List.find?]
  · norm_num [ObDec.get_best_ask, List.find?]
  · norm_num [ObDec.get_spread, ObDec.get_best_bid, ObDec.get_best_ask,
      ObDec.calculate_spread, List.find?]
  · norm_num [ObDec.calculate_spread]

/-- C4 (amended): the u128 kernel `calculate_spread` is exactly the saturating
difference and never underflows; the Decimal-kernel `calculate_spread` of the
orderbook crate equals `ask - bid` whenever `bid ≠ 0` (hence is nonnegative
for uncrossed inputs); and `get_spread() ≥ 0` whenever `get_best_bid() > 0`,
`get_best_ask() < +∞` and the book is not crossed
(`get_best_bid ≤ get_best_ask`). -/
theorem c4_spread_amended :
    (∀ ask bid : Nat, (FinArith.calculate_spread ask bid : Int) =
        max ((ask : Int) - (bid : Int)) 0) ∧
    (∀ (ask bid : ℚ) (precision : Nat), 0 < bid → bid ≤ ask →
        ObDec.calculate_spread ask bid precision = ask - bid ∧
        0 ≤ ObDec.calculate_spread ask bid precision) ∧
    (∀ (lv : ObDec.Levels) (a : ℚ), 0 < ObDec.get_best_bid lv →
        ObDec.get_best_ask lv = some a → ObDec.get_best_bid lv ≤ a →
        0 ≤ ObDec.get_spread 8 lv) := by
  refine ⟨?_, ?_, ?_⟩
  · intro ask bid
    unfold FinArith.calculate_spread
    omega
  · intro ask bid precision hb hle
    have hbne : ¬bid = 0 := by
      intro h; rw [h] at hb; exact absurd hb (lt_irrefl 0)
    unfold ObDec.calculate_spread
    rw [if_neg hbne]
    exact ⟨rfl, by linarith⟩
  · intro lv a hbb hba hle
    unfold ObDec.get_spread
    rw [hba]
    have ha : (0 : ℚ) < a := lt_of_lt_of_le hbb hle
    have hcond : ¬(ObDec.get_best_bid lv = 0 ∨ (some a).getD 0 = 0) := by
      simp only [Option.getD_some]
      push_neg
      constructor
      · intro h; rw [h] at hbb; exact absurd hbb (lt_irrefl 0)
      · intro h; rw [h] at ha; exact absurd ha (lt_irrefl 0)
    rw [if_neg hcond]
    simp only [Option.getD_some]
    unfold ObDec.calculate_spread
    have hbne : ¬ObDec.get_best_bid lv = 0 := by
      intro h; rw [h] at hbb; exact absurd hbb (lt_irrefl 0)
    rw [if_neg hbne]
    linarith

/-- C4 witness: the amended theorem evaluated at `(ask, bid) = (5, 3)` on the
u128 kernel, `(101, 100)` on the Decimal kernel, and on a one-bid/one-ask
uncrossed book. -/
theorem c4_spread_witness :
    (FinArith.calculate_spread 5 3 : Int) = max ((5 : Int) - 3) 0 ∧
    ObDec.calculate_spread 101 100 8 = 101 - 100 ∧
    0 ≤ ObDec.get_spread 8
        [(100, ⟨100, 1, 0, 0, none, none, none, none⟩),
         (101, ⟨101, 0, 1, 0, none, none, none, none⟩)] := by
  refine ⟨c4_spread_amended.1 5 3,
    (c4_spread_amended.2.1 101 100 8 (by norm_num) (by norm_num)).1,
    c4_spread_amended.2.2
      [(100, ⟨100, 1, 0, 0, none, none, none, none⟩),
       (101, ⟨101, 0, 1, 0, none, none, none, none⟩)] 101 ?_ ?_ ?_⟩
  · norm_num [ObDec.get_best_bid, List.find?]
  · norm_num [ObDec.get_best_ask, List.find?]
  · norm_num [ObDec.get_best_bid, List.find?]

theorem parseBigUint_none_of_bad (s : String) (h : BigArith.badBigStr s) :
    BigArith.parseBigUint s = none := by
  unfold BigArith.badBigStr at h
  unfold BigArith.parseBigUint
  rcases h with h | h | h
  · simp [h]
  · cases ht : BigArith.stripPlus s.data with
    | nil => rw [ht] at h; simp at h
    | cons c cs =>
      rw [ht] at h
      simp only [List.head?_cons, Option.some.injEq] at h
      simp [h]
  · obtain ⟨c, hc, hcn⟩ := h
    have hall : ¬((BigArith.stripPlus s.data).all
        (fun c => c.isDigit || c = '_') = true) := by
      simp only [List.all_eq_true]
      intro hforall
      have := hforall c hc
      simp only [Bool.or_eq_true, decide_eq_true_eq] at this
      exact hcn this
    by_cases he : (BigArith.stripPlus s.data).isEmpty
    · simp [he]
    · by_cases hu : (BigArith.stripPlus s.data).head? = some '_'
      · simp [he, hu]
      · simp [he, hu, hall]

/-- C9 (amended): each of the six big-integer operations fails with
`InvalidValue` whenever an operand is a numeral their parser rejects: one
that, after one optional leading `'+'`, is empty, starts with `'_'`, or
contains a character that is neither a decimal digit nor an `'_'` separator.
(A leading `'+'` and interior `'_'` are accepted by the `num-bigint` parser,
so a non-digit character alone does not force a failure.) -/
theorem c9_big_nondigit_amended (a b : String)
    (h : BigArith.badBigStr a ∨ BigArith.badBigStr b) :
    BigArith.big_safe_add a b = .error .InvalidValue ∧
    BigArith.big_safe_subtract a b = .error .InvalidValue ∧
    BigArith.big_safe_multiply a b = .error .InvalidValue ∧
    BigArith.big_safe_divide a b = .error .InvalidValue ∧
    BigArith.big_absolute_difference a b = .error .InvalidValue ∧
    BigArith.big_compare a b = .error .InvalidValue := by
  rcases h with h | h
  · have hp := parseBigUint_none_of_bad a h
    refine ⟨?_, ?_, ?_, ?_, ?_, ?_⟩
    · unfold BigArith.big_safe_add; rw [hp]
    · unfold BigArith.big_safe_subtract; rw [hp]
    · unfold BigArith.big_safe_multiply; rw [hp]
    · unfold BigArith.big_safe_divide; rw [hp]
    · unfold BigArith.big_absolute_difference; rw [hp]
    · unfold BigArith.big_compare; rw [hp]
  · have hp := parseBigUint_none_of_bad b h
    refine ⟨?_, ?_, ?_, ?_, ?_, ?_⟩
    · unfold BigArith.big_safe_add; rw [hp]
      cases hpa : BigArith.parseBigUint a <;> rfl
    · unfold BigArith.big_safe_subtract; rw [hp]
      cases hpa : BigArith.parseBigUint a <;> rfl
    · unfold BigArith.big_safe_multiply; rw [hp]
      cases hpa : BigArith.parseBigUint a <;> rfl
    · unfold BigArith.big_safe_divide; rw [hp]
      cases hpa : BigArith.parseBigUint a <;> rfl
    · unfold BigArith.big_absolute_difference; rw [hp]
      cases hpa : BigArith.parseBigUint a <;> rfl
    · unfold BigArith.big_compare; rw [hp]
      cases hpa : BigArith.parseBigUint a <;> rfl

/-- C9 counterexample: `"+1"` contains the non-digit character `'+'`, yet
`big_safe_add "+1" "1"` succeeds with `"2"` instead of failing with
`InvalidValue` — the dependency's parser strips one leading `'+'`. -/
theorem c9_big_plus_counterexample :
    BigArith.big_safe_add "+1" "1" = .ok "2" ∧
    '+' ∈ "+1".data ∧ '+'.isDigit = false := by
  refine ⟨?_, by decide, by decide⟩
  rfl

/-- C9 witness: the amended theorem at the operands `("1a", "7")` — `'a'` is
neither a digit nor an underscore, so all six operations fail with
`InvalidValue`. -/
theorem c9_big_nondigit_witness :
    BigArith.big_safe_add "1a" "7" = .error .InvalidValue ∧
    BigArith.big_safe_subtract "1a" "7" = .error .InvalidValue ∧
    BigArith.big_safe_multiply "1a" "7" = .error .InvalidValue ∧
    BigArith.big_safe_divide "1a" "7" = .error .InvalidValue ∧
    BigArith.big_absolute_difference "1a" "7" = .error .InvalidValue ∧
    BigArith.big_compare "1a" "7" = .error .InvalidValue :=
  c9_big_nondigit_amended "1a" "7" (Or.inl (by decide))

theorem processSide_none (pp pq : String → Option ℚ) (norm : ℚ → ℚ) (now : Nat)
    (isBid : Bool) :
    ∀ (L : List (String × String)) (lv lv2 : ObCore.Levels),
      ObCore.processSide pp pq norm now isBid L lv = (lv2, none) →
      lv2 = ObCore.applyToks pp pq norm now isBid L lv ∧
      ∀ t ∈ L, (ObCore.parseTok pp pq t).isOk = true := by
  intro L
  induction L with
  | nil =>
    intro lv lv2 h
    simp only [ObCore.processSide, Prod.mk.injEq] at h
    simp [ObCore.applyToks, h.1.symm]
  | cons t rest ih =>
    intro lv lv2 h
    unfold ObCore.processSide at h
    cases hp : ObCore.parseTok pp pq t with
    | error e => rw [hp] at h; simp at h
    | ok v =>
      obtain ⟨p, q⟩ := v
      rw [hp] at h
      obtain ⟨h1, h2⟩ := ih _ _ h
      refine ⟨?_, ?_⟩
      · rw [h1]
        simp [ObCore.applyToks, ObCore.applyTok, hp]
      · intro t2 ht2
        rcases List.mem_cons.1 ht2 with rfl | ht2
        · rw [hp]; rfl
        · exact h2 t2 ht2

theorem processSide_allOk (pp pq : String → Option ℚ) (norm : ℚ → ℚ) (now : Nat)
    (isBid : Bool) :
    ∀ (L : List (String × String)) (lv : ObCore.Levels),
      (∀ t ∈ L, (ObCore.parseTok pp pq t).isOk = true) →
      ObCore.processSide pp pq norm now isBid L lv =
        (ObCore.applyToks pp pq norm now isBid L lv, none) := by
  intro L
  induction L with
  | nil => intro lv _; simp [ObCore.processSide, ObCore.applyToks]
  | cons t rest ih =>
    intro lv hok
    have h0 := hok t (List.mem_cons_self t rest)
    cases hp : ObCore.parseTok pp pq t with
    | error e => rw [hp] at h0; simp [Except.isOk, Except.toBool] at h0
    | ok v =>
      obtain ⟨p, q⟩ := v
      unfold ObCore.processSide
      rw [hp]
      dsimp only
      rw [ih _ (fun t2 ht2 => hok t2 (List.mem_cons_of_mem t ht2))]
      simp [ObCore.applyToks, ObCore.applyTok, hp]

theorem processSide_firstFail (pp pq : String → Option ℚ) (norm : ℚ → ℚ)
    (now : Nat) (isBid : Bool) :
    ∀ (pre : List (String × String)) (t : String × String)
      (post : List (String × String)) (lv : ObCore.Levels) (e : String),
      (∀ t2 ∈ pre, (ObCore.parseTok pp pq t2).isOk = true) →
      ObCore.parseTok pp pq t = .error e →
      ObCore.processSide pp pq norm now isBid (pre ++ t :: post) lv =
        (ObCore.applyToks pp pq norm now isBid pre lv, some e) := by
  intro pre
  induction pre with
  | nil =>
    intro t post lv e _ hf
    simp only [List.nil_append]
    unfold ObCore.processSide
    rw [hf]
    simp [ObCore.applyToks]
  | cons t0 pre ih =>
    intro t post lv e hok hf
    have h0 := hok t0 (List.mem_cons_self t0 pre)
    cases hp : ObCore.parseTok pp pq t0 with
    | error e0 => rw [hp] at h0; simp [Except.isOk, Except.toBool] at h0
    | ok v =>
      obtain ⟨p, q⟩ := v
      simp only [List.cons_append]
      unfold ObCore.processSide
      rw [hp]
      dsimp only
      rw [ih t post _ e (fun t2 ht2 => hok t2 (List.mem_cons_of_mem t0 ht2)) hf]
      simp [ObCore.applyToks, ObCore.applyTok, hp]

theorem processUpdate_frame (pp pq : String → Option ℚ) (norm : ℚ → ℚ)
    (now : Nat) (b : ObCore.OrderBook) (u : ObCore.DepthUpdate) :
    (ObCore.processUpdate pp pq norm now b u).1.circuit_open = b.circuit_open ∧
    (ObCore.processUpdate pp pq norm now b u).1.circuit_open_until =
      b.circuit_open_until ∧
    (ObCore.processUpdate pp pq norm now b u).1.error_count = b.error_count := by
  unfold ObCore.processUpdate
  split
  · exact ⟨rfl, rfl, rfl⟩
  · split
    · exact ⟨rfl, rfl, rfl⟩
    · exact ⟨rfl, rfl, rfl⟩

theorem processUpdate_ok (pp pq : String → Option ℚ) (norm : ℚ → ℚ) (now : Nat)
    (b : ObCore.OrderBook) (u : ObCore.DepthUpdate) :
    (ObCore.processUpdate pp pq norm now b u).2 = .ok () →
      (ObCore.processUpdate pp pq norm now b u).1 =
        { b with
          levels := ObCore.applyToks pp pq norm now false u.asks
            (ObCore.applyToks pp pq norm now true u.bids b.levels),
          last_update := now } ∧
      (∀ t ∈ u.bids, (ObCore.parseTok pp pq t).isOk = true) ∧
      (∀ t ∈ u.asks, (ObCore.parseTok pp pq t).isOk = true) := by
  unfold ObCore.processUpdate
  rcases h1 : ObCore.processSide pp pq norm now true u.bids b.levels with ⟨lv, r1⟩
  cases r1 with
  | some e => intro h; simp at h
  | none =>
    dsimp only
    rcases h2 : ObCore.processSide pp pq norm now false u.asks lv with ⟨lv2, r2⟩
    cases r2 with
    | some e => intro h; simp at h
    | none =>
      dsimp only
      intro _
      obtain ⟨hb1, hb2⟩ := processSide_none pp pq norm now true u.bids _ _ h1
      obtain ⟨ha1, ha2⟩ := processSide_none pp pq norm now false u.asks _ _ h2
      refine ⟨?_, hb2, ha2⟩
      rw [ha1, hb1]

/-- C5: with the circuit open and a deadline strictly after `now`,
`update_depth` returns success and leaves the whole book — level map, size
and `last_update` — unchanged; once the deadline has passed, the flag is
cleared and the update is processed normally. -/
theorem c5_circuit_breaker (pp pq : String → Option ℚ) (norm : ℚ → ℚ)
    (now : Nat) (b : ObCore.OrderBook) (u : ObCore.DepthUpdate) (d : Nat)
    (hopen : b.circuit_open = true) (huntil : b.circuit_open_until = some d) :
    (now < d → ObCore.update_depth pp pq norm now b u = (b, .ok ())) ∧
    (d ≤ now →
      ObCore.update_depth pp pq norm now b u =
        ObCore.processUpdate pp pq norm now
          { b with circuit_open := false, circuit_open_until := none } u ∧
      (ObCore.update_depth pp pq norm now b u).1.circuit_open = false) := by
  have e1 : ObCore.update_depth pp pq norm now b u =
      if now < d then (b, .ok ())
      else ObCore.processUpdate pp pq norm now
        { b with circuit_open := false, circuit_open_until := none } u := by
    unfold ObCore.update_depth
    rw [hopen, huntil]
    simp
  constructor
  · intro h
    rw [e1, if_pos h]
  · intro h
    have e2 : ObCore.update_depth pp pq norm now b u =
        ObCore.processUpdate pp pq norm now
          { b with circuit_open := false, circuit_open_until := none } u := by
      rw [e1, if_neg (Nat.not_lt.2 h)]
    refine ⟨e2, ?_⟩
    rw [e2, (processUpdate_frame pp pq norm now _ u).1]

/-- C5 witness: a book with the circuit open until instant 10 ignores a valid
bid update at instant 5 and processes it normally (flag cleared) at
instant 15. -/
theorem c5_circuit_breaker_witness :
    ObCore.update_depth testParse testParse id 5
        ⟨[], 3, 0, true, some 10⟩ ⟨"S", 1, 2, [("1", "1")], []⟩ =
      (⟨[], 3, 0, true, some 10⟩, .ok ()) ∧
    (ObCore.update_depth testParse testParse id 15
        ⟨[], 3, 0, true, some 10⟩ ⟨"S", 1, 2, [("1", "1")], []⟩ =
      ObCore.processUpdate testParse testParse id 15
        ⟨[], 3, 0, false, none⟩ ⟨"S", 1, 2, [("1", "1")], []⟩ ∧
    (ObCore.update_depth testParse testParse id 15
        ⟨[], 3, 0, true, some 10⟩ ⟨"S", 1, 2, [("1", "1")], []⟩).1.circuit_open
      = false) :=
  ⟨(c5_circuit_breaker testParse testParse id 5 ⟨[], 3, 0, true, some 10⟩
      ⟨"S", 1, 2, [("1", "1")], []⟩ 10 rfl rfl).1 (by norm_num),
   (c5_circuit_breaker testParse testParse id 15 ⟨[], 3, 0, true, some 10⟩
      ⟨"S", 1, 2, [("1", "1")], []⟩ 10 rfl rfl).2 (by norm_num)⟩

/-- C10: with the circuit flag set but no deadline, `update_depth` does not
drop the update — it runs the normal processing path, leaves `circuit_open`
still true, and on success every token parsed, every token was applied, and
`last_update` is set to `now`. -/
theorem c10_circuit_none (pp pq : String → Option ℚ) (norm : ℚ → ℚ)
    (now : Nat) (b : ObCore.OrderBook) (u : ObCore.DepthUpdate)
    (hopen : b.circuit_open = true) (huntil : b.circuit_open_until = none) :
    ObCore.update_depth pp pq norm now b u =
      ObCore.processUpdate pp pq norm now b u ∧
    (ObCore.update_depth pp pq norm now b u).1.circuit_open = true ∧
    ((ObCore.update_depth pp pq norm now b u).2 = .ok () →
      (ObCore.update_depth pp pq norm now b u).1.levels =
        ObCore.applyToks pp pq norm now false u.asks
          (ObCore.applyToks pp pq norm now true u.bids b.levels) ∧
      (ObCore.update_depth pp pq norm now b u).1.last_update = now ∧
      (∀ t ∈ u.bids, (ObCore.parseTok pp pq t).isOk = true) ∧
      (∀ t ∈ u.asks, (ObCore.parseTok pp pq t).isOk = true)) := by
  have e1 : ObCore.update_depth pp pq norm now b u =
      ObCore.processUpdate pp pq norm now b u := by
    unfold ObCore.update_depth
    rw [hopen, huntil]
    simp
  refine ⟨e1, ?_, ?_⟩
  · rw [e1, (processUpdate_frame pp pq norm now b u).1, hopen]
  · rw [e1]
    intro hok
    obtain ⟨hbook, hbids, hasks⟩ := processUpdate_ok pp pq norm now b u hok
    rw [hbook]
    exact ⟨rfl, rfl, hbids, hasks⟩

/-- C10 witness: a book with `circuit_open = true` and no deadline applies a
valid one-bid update: the level map is the applied token list and
`last_update` becomes `now`, with the flag still set. -/
theorem c10_circuit_none_witness :
    ObCore.update_depth testParse testParse id 7
        ⟨[], 3, 0, true, none⟩ ⟨"S", 1, 2, [("1", "1")], []⟩ =
      ObCore.processUpdate testParse testParse id 7
        ⟨[], 3, 0, true, none⟩ ⟨"S", 1, 2, [("1", "1")], []⟩ ∧
    (ObCore.update_depth testParse testParse id 7
        ⟨[], 3, 0, true, none⟩ ⟨"S", 1, 2, [("1", "1")], []⟩).1.circuit_open
      = true ∧
    (ObCore.update_depth testParse testParse id 7
        ⟨[], 3, 0, true, none⟩ ⟨"S", 1, 2, [("1", "1")], []⟩).1.levels =
      ObCore.applyToks testParse testParse id 7 false []
        (ObCore.applyToks testParse testParse id 7 true [("1", "1")] []) ∧
    (ObCore.update_depth testParse testParse id 7
        ⟨[], 3, 0, true, none⟩ ⟨"S", 1, 2, [("1", "1")], []⟩).1.last_update
      = 7 := by
  have h := c10_circuit_none testParse testParse id 7
    ⟨[], 3, 0, true, none⟩ ⟨"S", 1, 2, [("1", "1")], []⟩ rfl rfl
  refine ⟨h.1, h.2.1, ?_, ?_⟩
  · exact (h.2.2 (by rw [h.1]; rfl)).1
  · exact (h.2.2 (by rw [h.1]; rfl)).2.1

theorem update_depth_not_suppressed (pp pq : String → Option ℚ) (norm : ℚ → ℚ)
    (now : Nat) (b : ObCore.OrderBook) (u : ObCore.DepthUpdate)
    (h : ¬ObCore.suppressed b now) :
    ∃ b1 : ObCore.OrderBook,
      ObCore.update_depth pp pq norm now b u =
        ObCore.processUpdate pp pq norm now b1 u ∧
      b1.levels = b.levels ∧ b1.last_update = b.last_update := by
  unfold ObCore.suppressed at h
  push_neg at h
  cases hop : b.circuit_open with
  | false =>
    refine ⟨b, ?_, rfl, rfl⟩
    unfold ObCore.update_depth
    rw [hop]
    simp
  | true =>
    cases hun : b.circuit_open_until with
    | none =>
      refine ⟨b, ?_, rfl, rfl⟩
      unfold ObCore.update_depth
      rw [hop, hun]
      simp
    | some d =>
      have hd : d ≤ now := h hop d hun
      refine ⟨{ b with circuit_open := false, circuit_open_until := none },
        ?_, rfl, rfl⟩
      unfold ObCore.update_depth
      rw [hop, hun]
      simp [Nat.not_lt.2 hd]

/-- C2 (amended): provided the circuit breaker does not suppress the update,
a depth update with a token whose price or quantity string fails to parse
makes `update_depth` fail with the message naming that token, applies exactly
the tokens strictly before it (the bids list first, then the asks, each in
list order) and leaves `last_update` unchanged.  (With the circuit open and an
unexpired deadline the same call returns success without reporting the bad
token, see the counterexample.) -/
theorem c2_parse_failure_amended (pp pq : String → Option ℚ) (norm : ℚ → ℚ)
    (now : Nat) (b : ObCore.OrderBook) (u : ObCore.DepthUpdate) (e : String)
    (hsup : ¬ObCore.suppressed b now) :
    (∀ (preB : List (String × String)) (tB : String × String)
       (postB : List (String × String)),
      u.bids = preB ++ tB :: postB →
      (∀ t ∈ preB, (ObCore.parseTok pp pq t).isOk = true) →
      ObCore.parseTok pp pq tB = .error e →
      (ObCore.update_depth pp pq norm now b u).2 = .error e ∧
      (ObCore.update_depth pp pq norm now b u).1.levels =
        ObCore.applyToks pp pq norm now true preB b.levels ∧
      (ObCore.update_depth pp pq norm now b u).1.last_update = b.last_update) ∧
    (∀ (preA : List (String × String)) (tA : String × String)
       (postA : List (String × String)),
      (∀ t ∈ u.bids, (ObCore.parseTok pp pq t).isOk = true) →
      u.asks = preA ++ tA :: postA →
      (∀ t ∈ preA, (ObCore.parseTok pp pq t).isOk = true) →
      ObCore.parseTok pp pq tA = .error e →
      (ObCore.update_depth pp pq norm now b u).2 = .error e ∧
      (ObCore.update_depth pp pq norm now b u).1.levels =
        ObCore.applyToks pp pq norm now false preA
          (ObCore.applyToks pp pq norm now true u.bids b.levels) ∧
      (ObCore.update_depth pp pq norm now b u).1.last_update = b.last_update) := by
  obtain ⟨b1, he, hlv, hlu⟩ := update_depth_not_suppressed pp pq norm now b u hsup
  constructor
  · intro preB tB postB hsplit hok hf
    have hps : ObCore.processSide pp pq norm now true u.bids b1.levels =
        (ObCore.applyToks pp pq norm now true preB b1.levels, some e) := by
      rw [hsplit]
      exact processSide_firstFail pp pq norm now true preB tB postB _ e hok hf
    have hres : ObCore.processUpdate pp pq norm now b1 u =
        ({ b1 with levels := ObCore.applyToks pp pq norm now true preB b1.levels },
          .error e) := by
      unfold ObCore.processUpdate
      rw [hps]
    rw [he, hres, hlv]
    exact ⟨rfl, rfl, hlu⟩
  · intro preA tA postA hbidsOk hsplit hok hf
    have hps1 : ObCore.processSide pp pq norm now true u.bids b1.levels =
        (ObCore.applyToks pp pq norm now true u.bids b1.levels, none) :=
      processSide_allOk pp pq norm now true u.bids b1.levels hbidsOk
    have hps2 : ObCore.processSide pp pq norm now false u.asks
        (ObCore.applyToks pp pq norm now true u.bids b1.levels) =
        (ObCore.applyToks pp pq norm now false preA
          (ObCore.applyToks pp pq norm now true u.bids b1.levels), some e) := by
      rw [hsplit]
      exact processSide_firstFail pp pq norm now false preA tA postA _ e hok hf
    have hres : ObCore.processUpdate pp pq norm now b1 u =
        ({ b1 with levels := (ObCore.applyToks pp pq norm now false preA
            (ObCore.applyToks pp pq norm now true u.bids b1.levels)) },
          .error e) := by
      unfold ObCore.processUpdate
      rw [hps1]
      dsimp only
      rw [hps2]
    rw [he, hres, hlv]
    exact ⟨rfl, rfl, hlu⟩

/-- C2 counterexample: a book whose circuit is open until instant 10 receives,
at instant 0, an update whose single bid token has an unparsable price; the
call returns success and reports no error at all, so the claim fails for such
book states. -/
theorem c2_parse_failure_counterexample :
    ObCore.parseTok testParse testParse ("oops", "1") =
      .error "Invalid price: oops" ∧
    ObCore.update_depth testParse testParse id 0
        ⟨[], 3, 0, true, some 10⟩ ⟨"S", 1, 2, [("oops", "1")], []⟩ =
      (⟨[], 3, 0, true, some 10⟩, .ok ()) := by
  constructor
  · rfl
  · rfl

/-- C2 witness: on a circuit-closed book, a bid list `[("1","1"),
("2","oops")]` fails at the second token with the quantity message, retains
exactly the level applied by the first token, and leaves `last_update`
untouched; symmetrically for a failing ask token after valid bids. -/
theorem c2_parse_failure_witness :
    ((ObCore.update_depth testParse testParse id 9 (ObCore.emptyBook 3)
        ⟨"S", 1, 2, [("1", "1"), ("2", "oops")], []⟩).2 =
      .error "Invalid quantity: oops" ∧
    (ObCore.update_depth testParse testParse id 9 (ObCore.emptyBook 3)
        ⟨"S", 1, 2, [("1", "1"), ("2", "oops")], []⟩).1.levels =
      ObCore.applyToks testParse testParse id 9 true [("1", "1")] [] ∧
    (ObCore.update_depth testParse testParse id 9 (ObCore.emptyBook 3)
        ⟨"S", 1, 2, [("1", "1"), ("2", "oops")], []⟩).1.last_update = 3) ∧
    ((ObCore.update_depth testParse testParse id 9 (ObCore.emptyBook 3)
        ⟨"S", 1, 2, [("1", "1")], [("oops", "2")]⟩).2 =
      .error "Invalid price: oops" ∧
    (ObCore.update_depth testParse testParse id 9 (ObCore.emptyBook 3)
        ⟨"S", 1, 2, [("1", "1")], [("oops", "2")]⟩).1.levels =
      ObCore.applyToks testParse testParse id 9 false []
        (ObCore.applyToks testParse testParse id 9 true [("1", "1")] []) ∧
    (ObCore.update_depth testParse testParse id 9 (ObCore.emptyBook 3)
        ⟨"S", 1, 2, [("1", "1")], [("oops", "2")]⟩).1.last_update = 3) := by
  constructor
  · exact (c2_parse_failure_amended testParse testParse id 9 (ObCore.emptyBook 3)
      ⟨"S", 1, 2, [("1", "1"), ("2", "oops")], []⟩ "Invalid quantity: oops"
      (by simp [ObCore.suppressed, ObCore.emptyBook])).1
      [("1", "1")] ("2", "oops") [] rfl (by intro t ht; fin_cases ht; rfl) rfl
  · exact (c2_parse_failure_amended testParse testParse id 9 (ObCore.emptyBook 3)
      ⟨"S", 1, 2, [("1", "1")], [("oops", "2")]⟩ "Invalid price: oops"
      (by simp [ObCore.suppressed, ObCore.emptyBook])).2
      [] ("oops", "2") [] (by intro t ht; fin_cases ht; rfl) rfl
      (by intro t ht; simp at ht) rfl

theorem update_level_pres (norm : ℚ → ℚ) (lv : ObCore.Levels)
    (price bq aq : ℚ) (ts : Nat) (hlv : ObCore.exclusivityOK lv)
    (hb : 0 ≤ bq) (ha : 0 ≤ aq) (hz : bq = 0 ∨ aq = 0) :
    ObCore.exclusivityOK (ObCore.update_level norm lv price bq aq ts) := by
  unfold ObCore.update_level
  split
  · exact mapErase_values _ _ _ hlv
  · next h =>
    apply mapInsert_values _ _ _ _ hlv
    have hOK : ∀ l : ObCore.PassiveLevel, l.bid = bq → l.ask = aq →
        ObCore.levelOK l := by
      intro l h1 h2
      constructor
      · rintro ⟨hb1, ha1⟩
        rcases hz with rfl | rfl
        · rw [h1] at hb1; exact absurd hb1 (lt_irrefl 0)
        · rw [h2] at ha1; exact absurd ha1 (lt_irrefl 0)
      · rcases hz with rfl | rfl
        · have haq : aq ≠ 0 := fun hh => h ⟨rfl, hh⟩
          right; rw [h2]; exact lt_of_le_of_ne ha (Ne.symm haq)
        · have hbq : bq ≠ 0 := fun hh => h ⟨hh, rfl⟩
          left; rw [h1]; exact lt_of_le_of_ne hb (Ne.symm hbq)
    apply hOK
    · split <;> split <;> rfl
    · split <;> split <;> rfl

theorem parseTok_ok_qty (pp pq : String → Option ℚ) (t : String × String)
    (p q : ℚ) (h : ObCore.parseTok pp pq t = .ok (p, q)) : pq t.2 = some q := by
  unfold ObCore.parseTok at h
  cases hp : pp t.1 with
  | none => rw [hp] at h; simp at h
  | some p2 =>
    rw [hp] at h
    cases hq : pq t.2 with
    | none => rw [hq] at h; simp at h
    | some q2 =>
      rw [hq] at h
      simp only [Except.ok.injEq, Prod.mk.injEq] at h
      rw [h.2]

theorem processSide_pres (pp pq : String → Option ℚ) (norm : ℚ → ℚ) (now : Nat)
    (isBid : Bool) (hq : ∀ s q, pq s = some q → 0 ≤ q) :
    ∀ (L : List (String × String)) (lv : ObCore.Levels),
      ObCore.exclusivityOK lv →
      ObCore.exclusivityOK (ObCore.processSide pp pq norm now isBid L lv).1 := by
  intro L
  induction L with
  | nil => intro lv hlv; exact hlv
  | cons t rest ih =>
    intro lv hlv
    unfold ObCore.processSide
    cases hp : ObCore.parseTok pp pq t with
    | error e => exact hlv
    | ok v =>
      obtain ⟨p, q⟩ := v
      dsimp only
      apply ih
      have hqn : 0 ≤ q := hq t.2 q (parseTok_ok_qty pp pq t p q hp)
      cases isBid with
      | true =>
        exact update_level_pres norm lv p q 0 now hlv hqn le_rfl (Or.inr rfl)
      | false =>
        exact update_level_pres norm lv p 0 q now hlv le_rfl hqn (Or.inl rfl)

theorem processUpdate_pres (pp pq : String → Option ℚ) (norm : ℚ → ℚ)
    (now : Nat) (b : ObCore.OrderBook) (u : ObCore.DepthUpdate)
    (hq : ∀ s q, pq s = some q → 0 ≤ q)
    (hlv : ObCore.exclusivityOK b.levels) :
    ObCore.exclusivityOK (ObCore.processUpdate pp pq norm now b u).1.levels := by
  unfold ObCore.processUpdate
  have h1 := processSide_pres pp pq norm now true hq u.bids b.levels hlv
  rcases hps1 : ObCore.processSide pp pq norm now true u.bids b.levels with ⟨lv, r1⟩
  rw [hps1] at h1
  cases r1 with
  | some e => exact h1
  | none =>
    dsimp only
    have h2 := processSide_pres pp pq norm now false hq u.asks lv h1
    rcases hps2 : ObCore.processSide pp pq norm now false u.asks lv with ⟨lv2, r2⟩
    rw [hps2] at h2
    cases r2 with
    | some e => exact h2
    | none => exact h2

theorem update_depth_pres (pp pq : String → Option ℚ) (norm : ℚ → ℚ)
    (now : Nat) (b : ObCore.OrderBook) (u : ObCore.DepthUpdate)
    (hq : ∀ s q, pq s = some q → 0 ≤ q)
    (hlv : ObCore.exclusivityOK b.levels) :
    ObCore.exclusivityOK (ObCore.update_depth pp pq norm now b u).1.levels := by
  unfold ObCore.update_depth
  split
  · split
    · split
      · exact hlv
      · exact processUpdate_pres pp pq norm now _ u hq hlv
    · exact processUpdate_pres pp pq norm now b u hq hlv
  · exact processUpdate_pres pp pq norm now b u hq hlv

theorem runUpdates_pres (pp pq : String → Option ℚ) (norm : ℚ → ℚ)
    (hq : ∀ s q, pq s = some q → 0 ≤ q) :
    ∀ (steps : List (Nat × ObCore.DepthUpdate)) (b : ObCore.OrderBook),
      ObCore.exclusivityOK b.levels →
      ObCore.exclusivityOK (ObCore.runUpdates pp pq norm steps b).levels := by
  intro steps
  induction steps with
  | nil => intro b hb; exact hb
  | cons s rest ih =>
    intro b hb
    exact ih _ (update_depth_pres pp pq norm s.1 b s.2 hq hb)

theorem set_pres (tree : BTreemapCore.Levels) (price : ℚ) (side : String)
    (quantity : ℚ) (now : ℚ) (htree : BTreemapCore.exclusivityOK tree)
    (hq : 0 < quantity) (hside2 : side = "bid" ∨ side = "ask") :
    BTreemapCore.exclusivityOK (BTreemapCore.set tree price side quantity now) := by
  cases hf : mapFind? (BTreemapCore.price_to_u128 price) tree with
  | some existing =>
    unfold BTreemapCore.set
    dsimp only
    rw [hf]
    dsimp only
    apply mapInsert_values _ _ _ _ htree
    by_cases hside : side = "bid"
    · rw [if_pos hside, if_pos hq]
      exact ⟨fun h => absurd h.2 (lt_irrefl 0), Or.inl hq⟩
    · rw [if_neg hside, if_pos hq]
      exact ⟨fun h => absurd h.1 (lt_irrefl 0), Or.inr hq⟩
  | none =>
    unfold BTreemapCore.set
    dsimp only
    rw [hf]
    dsimp only
    apply mapInsert_values _ _ _ _ htree
    rcases hside2 with rfl | rfl
    · rw [if_pos rfl, if_neg (by decide : ¬("bid" : String) = "ask")]
      exact ⟨fun h => absurd h.2 (lt_irrefl 0), Or.inl hq⟩
    · rw [if_neg (by decide : ¬("ask" : String) = "bid"), if_pos rfl]
      exact ⟨fun h => absurd h.1 (lt_irrefl 0), Or.inr hq⟩

theorem enforce_separation_pres (existing incoming : BTreemapCore.PassiveLevel)
    (hin : BTreemapCore.levelOK incoming) :
    BTreemapCore.levelOK
      (BTreemapCore.enforce_bid_ask_separation existing incoming) := by
  obtain ⟨hnot, hone⟩ := hin
  unfold BTreemapCore.enforce_bid_ask_separation
  dsimp only
  by_cases hbid : incoming.bid > 0
  · have hask : ¬incoming.ask > 0 := fun h => hnot ⟨hbid, h⟩
    rw [if_pos hbid, if_neg hask]
    exact ⟨fun h => absurd h.2 (lt_irrefl 0), Or.inl hbid⟩
  · have hask : incoming.ask > 0 := by
      rcases hone with h | h
      · exact absurd h hbid
      · exact h
    rw [if_neg hbid, if_pos hask]
    exact ⟨fun h => absurd h.1 (lt_irrefl 0), Or.inr hask⟩

theorem insert_pres (tree : BTreemapCore.Levels) (price : ℚ)
    (level : BTreemapCore.PassiveLevel)
    (htree : BTreemapCore.exclusivityOK tree)
    (hlevel : BTreemapCore.levelOK level) :
    BTreemapCore.exclusivityOK (BTreemapCore.insert tree price level) := by
  cases hf : mapFind? (BTreemapCore.price_to_u128 price) tree with
  | some existing =>
    unfold BTreemapCore.insert
    dsimp only
    rw [hf]
    exact mapInsert_values _ _ _ _ htree
      (enforce_separation_pres existing level hlevel)
  | none =>
    unfold BTreemapCore.insert
    dsimp only
    rw [hf]
    exact mapInsert_values _ _ _ _ htree hlevel

theorem applyWrites_pres :
    ∀ (ws : List BTreemapCore.BWrite) (tree : BTreemapCore.Levels),
      (∀ w ∈ ws, BTreemapCore.writeOK w) →
      BTreemapCore.exclusivityOK tree →
      BTreemapCore.exclusivityOK (BTreemapCore.applyWrites ws tree) := by
  intro ws
  induction ws with
  | nil => intro tree _ htree; exact htree
  | cons w rest ih =>
    intro tree hok htree
    have hw := hok w (List.mem_cons_self w rest)
    have hrest : ∀ w2 ∈ rest, BTreemapCore.writeOK w2 :=
      fun w2 h2 => hok w2 (List.mem_cons_of_mem w h2)
    apply ih _ hrest
    cases w with
    | set price side quantity now =>
      exact set_pres tree price side quantity now htree hw.1 hw.2
    | insert price level => exact insert_pres tree price level htree hw
    | delete price => exact mapErase_values _ _ _ htree

/-- C1 (amended): starting from an empty book, every stored PassiveLevel has
at most one of `bid`, `ask` strictly positive and at least one strictly
positive, provided each `set` carries a strictly positive quantity and a side
that is `"bid"` or `"ask"`, each `insert`ed level itself satisfies the
exclusivity predicate, and each depth-update token parses to a nonnegative
quantity.  (Unrestricted writes break the invariant, see the
counterexample.) -/
theorem c1_exclusivity_amended :
    (∀ ws : List BTreemapCore.BWrite,
      (∀ w ∈ ws, BTreemapCore.writeOK w) →
      BTreemapCore.exclusivityOK (BTreemapCore.applyWrites ws [])) ∧
    (∀ (pp pq : String → Option ℚ) (norm : ℚ → ℚ),
      (∀ s q, pq s = some q → 0 ≤ q) →
      ∀ (steps : List (Nat × ObCore.DepthUpdate)) (last0 : Nat),
        ObCore.exclusivityOK
          (ObCore.runUpdates pp pq norm steps (ObCore.emptyBook last0)).levels) := by
  constructor
  · intro ws hok
    exact applyWrites_pres ws [] hok (fun kv hkv => absurd hkv (List.not_mem_nil kv))
  · intro pp pq norm hq steps last0
    exact runUpdates_pres pp pq norm hq steps (ObCore.emptyBook last0)
      (fun kv hkv => absurd hkv (List.not_mem_nil kv))

/-- C1 counterexample: `set(100.0, "bid", 0.0)` on an empty book stores a
level with `bid = 0` and `ask = 0`, violating "at least one of bid and ask
strictly positive". -/
theorem c1_exclusivity_counterexample :
    ¬BTreemapCore.exclusivityOK
      (BTreemapCore.applyWrites [BTreemapCore.BWrite.set 100 "bid" 0 5] []) := by
  intro h
  have k0 : BTreemapCore.price_to_u128 100 = 10000000000 := by
    norm_num [BTreemapCore.price_to_u128, U128]; rfl
  have e : BTreemapCore.applyWrites [BTreemapCore.BWrite.set 100 "bid" 0 5] [] =
      [(10000000000,
        ⟨100, 0, 0, 5, some 0, some 0, some 0, some 0⟩)] := by
    simp +decide only [BTreemapCore.applyWrites, BTreemapCore.applyWrite,
      BTreemapCore.set.eq_def, mapFind?, mapInsert, k0, List.foldl]
  rw [e] at h
  have h2 := h _ (List.mem_singleton.2 rfl)
  rcases h2.2 with h3 | h3 <;> exact absurd h3 (lt_irrefl 0)

/-- C1 witness: the amended theorem on a concrete write sequence (a positive
`set`, a one-sided `insert`, a `delete`) and on a one-step depth update with
one bid and one ask token. -/
theorem c1_exclusivity_witness :
    BTreemapCore.exclusivityOK (BTreemapCore.applyWrites
      [BTreemapCore.BWrite.set 100 "bid" 10 1,
       BTreemapCore.BWrite.insert 101 ⟨101, 0, 4, 1, none, none, some 4, none⟩,
       BTreemapCore.BWrite.delete 100] []) ∧
    ObCore.exclusivityOK (ObCore.runUpdates testParse testParse id
      [(5, ⟨"S", 1, 2, [("1", "2")], [("2", "1")]⟩)]
      (ObCore.emptyBook 0)).levels := by
  constructor
  · apply c1_exclusivity_amended.1
    intro w hw
    fin_cases hw
    · exact ⟨by norm_num, Or.inl rfl⟩
    · exact ⟨by norm_num, Or.inr (by norm_num)⟩
    · exact trivial
  · apply c1_exclusivity_amended.2
    intro s q h
    unfold testParse at h
    split at h
    · injection h with h2; rw [← h2]; norm_num
    · split at h
      · injection h with h2; rw [← h2]; norm_num
      · exact absurd h (by simp)

/-- C3 (code bug): on the book built by the crate's own `test_best_bid_ask`
test — bids 10@100 and 5@101, asks 8@102 and 3@103 — the fused
`get_best_bid_ask` returns `(101, 103)`: its descending scan latches the
*highest*-keyed ask instead of the lowest, so the pair differs from
`(get_best_bid(), get_best_ask()) = (101, 102)` and from the value `(101,
102)` the test asserts. -/
theorem c3_bbo_code_bug :
    BTreemapCore.get_best_bid_ask (BTreemapCore.applyWrites
      [BTreemapCore.BWrite.set 100 "bid" 10 0, BTreemapCore.BWrite.set 101 "bid" 5 0,
       BTreemapCore.BWrite.set 102 "ask" 8 0, BTreemapCore.BWrite.set 103 "ask" 3 0]
      []) = (101, some 103) ∧
    BTreemapCore.get_best_bid (BTreemapCore.applyWrites
      [BTreemapCore.BWrite.set 100 "bid" 10 0, BTreemapCore.BWrite.set 101 "bid" 5 0,
       BTreemapCore.BWrite.set 102 "ask" 8 0, BTreemapCore.BWrite.set 103 "ask" 3 0]
      []) = 101 ∧
    BTreemapCore.get_best_ask (BTreemapCore.applyWrites
      [BTreemapCore.BWrite.set 100 "bid" 10 0, BTreemapCore.BWrite.set 101 "bid" 5 0,
       BTreemapCore.BWrite.set 102 "ask" 8 0, BTreemapCore.BWrite.set 103 "ask" 3 0]
      []) = some 102 ∧
    BTreemapCore.get_best_bid_ask (BTreemapCore.applyWrites
      [BTreemapCore.BWrite.set 100 "bid" 10 0, BTreemapCore.BWrite.set 101 "bid" 5 0,
       BTreemapCore.BWrite.set 102 "ask" 8 0, BTreemapCore.BWrite.set 103 "ask" 3 0]
      []) ≠
    (BTreemapCore.get_best_bid (BTreemapCore.applyWrites
      [BTreemapCore.BWrite.set 100 "bid" 10 0, BTreemapCore.BWrite.set 101 "bid" 5 0,
       BTreemapCore.BWrite.set 102 "ask" 8 0, BTreemapCore.BWrite.set 103 "ask" 3 0]
      []),
     BTreemapCore.get_best_ask (BTreemapCore.applyWrites
      [BTreemapCore.BWrite.set 100 "bid" 10 0, BTreemapCore.BWrite.set 101 "bid" 5 0,
       BTreemapCore.BWrite.set 102 "ask" 8 0, BTreemapCore.BWrite.set 103 "ask" 3 0]
      [])) := by
  have k0 : BTreemapCore.price_to_u128 100 = 10000000000 := by
    norm_num [BTreemapCore.price_to_u128, U128]; rfl
  have k1 : BTreemapCore.price_to_u128 101 = 10100000000 := by
    norm_num [BTreemapCore.price_to_u128, U128]; rfl
  have k2 : BTreemapCore.price_to_u128 102 = 10200000000 := by
    norm_num [BTreemapCore.price_to_u128, U128]; rfl
  have k3 : BTreemapCore.price_to_u128 103 = 10300000000 := by
    norm_num [BTreemapCore.price_to_u128, U128]; rfl
  have hbba : BTreemapCore.get_best_bid_ask (BTreemapCore.applyWrites
      [BTreemapCore.BWrite.set 100 "bid" 10 0, BTreemapCore.BWrite.set 101 "bid" 5 0,
       BTreemapCore.BWrite.set 102 "ask" 8 0, BTreemapCore.BWrite.set 103 "ask" 3 0]
      []) = (101, some 103) := by
    simp +decide only [BTreemapCore.applyWrites, BTreemapCore.applyWrite,
      BTreemapCore.set.eq_def, mapFind?, mapInsert, k0, k1, k2, k3, List.foldl,
      BTreemapCore.get_best_bid_ask, BTreemapCore.bboLoop, List.reverse,
      List.reverseAux, BTreemapCore.u128_to_price]
    norm_num
  have hbb : BTreemapCore.get_best_bid (BTreemapCore.applyWrites
      [BTreemapCore.BWrite.set 100 "bid" 10 0, BTreemapCore.BWrite.set 101 "bid" 5 0,
       BTreemapCore.BWrite.set 102 "ask" 8 0, BTreemapCore.BWrite.set 103 "ask" 3 0]
      []) = 101 := by
    simp +decide only [BTreemapCore.applyWrites, BTreemapCore.applyWrite,
      BTreemapCore.set.eq_def, mapFind?, mapInsert, k0, k1, k2, k3, List.foldl,
      BTreemapCore.get_best_bid, List.find?, List.reverse, List.reverseAux,
      BTreemapCore.u128_to_price]
    norm_num
  have hba : BTreemapCore.get_best_ask (BTreemapCore.applyWrites
      [BTreemapCore.BWrite.set 100 "bid" 10 0, BTreemapCore.BWrite.set 101 "bid" 5 0,
       BTreemapCore.BWrite.set 102 "ask" 8 0, BTreemapCore.BWrite.set 103 "ask" 3 0]
      []) = some 102 := by
    simp +decide only [BTreemapCore.applyWrites, BTreemapCore.applyWrite,
      BTreemapCore.set.eq_def, mapFind?, mapInsert, k0, k1, k2, k3, List.foldl,
      BTreemapCore.get_best_ask, List.find?, BTreemapCore.u128_to_price]
    norm_num
  refine ⟨hbba, hbb, hba, ?_⟩
  rw [hbba, hbb, hba]
  simp
